import Mathlib

/-!
Verification of the payroll/attendance/leave core of the Bheem_Hr repository
(`src/bheem_hr/core/services/hr_service.py`, class `HRService`).

The Python service methods are shallowly embedded as pure Lean functions over
explicit state.  Dates are day numbers (`Int`); clock times are `(hh, mm, ss)`
triples; SQL `Numeric` amounts are `Rat`; fallible endpoints return `Except`.
Where the class defines a method name twice, Python name resolution keeps the
last definition; both the effective and the shadowed variants are embedded
where a property depends on them.
-/

/-- Clock time of a check-in/check-out, fields ranging over the usual clock
values (hours below 24, minutes and seconds below 60). -/
structure Time where
  hh : Nat
  mm : Nat
  ss : Nat
deriving Repr, DecidableEq

/-- One row of the `hr.attendance` table: `date` is a day number, `status` is
the free-form `String(20)` column (default `"Present"`). -/
structure Attendance where
  employee_id : Nat
  date : Int
  check_in : Option Time
  check_out : Option Time
  status : String
deriving Repr, DecidableEq

/-- Embeds `att.check_in.strftime("%H:%M") > "09:35"` from
`get_half_days_leave`: lexicographic comparison of the zero-padded
hour-minute rendering, which on clock values equals minute-level comparison
(the format drops seconds). -/
def hmAfter935 (t : Time) : Bool :=
  decide (9 < t.hh ∨ (t.hh = 9 ∧ 35 < t.mm))

/-- Embeds `att.check_in > time(9, 35)` from `get_company_half_days_leave`:
Python `time` comparison, which includes seconds. -/
def timeAfter935 (t : Time) : Bool :=
  decide (9 < t.hh ∨ (t.hh = 9 ∧ (35 < t.mm ∨ (t.mm = 35 ∧ 0 < t.ss))))

/-- The half-day status test of `get_half_days_leave` (line 178):
`getattr(att, "status", None) == "halfday"`, an exact, case-sensitive match. -/
def empIsHalf (a : Attendance) : Bool :=
  decide (a.status = "halfday")

/-- The late test of `get_half_days_leave` (line 181):
`att.check_in and att.check_in.strftime("%H:%M") > "09:35"`. -/
def empIsLate (a : Attendance) : Bool :=
  match a.check_in with
  | some t => hmAfter935 t
  | none => false

/-- Embeds Python `str.lower()` (character-wise lower-casing; the statuses
involved are ASCII). -/
def pyLower (s : String) : String :=
  String.mk (s.data.map Char.toLower)

/-- The half-day status test of `get_company_half_days_leave` (line 244):
`att.status and att.status.lower() == "halfday"` (truthiness of the string,
then a case-insensitive match). -/
def compIsHalf (a : Attendance) : Bool :=
  decide (a.status ≠ "" ∧ pyLower a.status = "halfday")

/-- The late test of `get_company_half_days_leave` (line 248):
`att.check_in and att.check_in > time(9, 35)`. -/
def compIsLate (a : Attendance) : Bool :=
  match a.check_in with
  | some t => timeAfter935 t
  | none => false

/-- One iteration of the scan of `get_half_days_leave` (hr_service.py lines
176-188) on the state `(half_days, late_days)`.  The `"halfday"` branch
appends to `half_days` and leaves `late_days` untouched; the late branch
appends to `late_days`; any other record resets `late_days`; afterwards a
`late_days` of length 3 credits its last element (`late_days[-1]`) as a
half-day and resets the streak. -/
def empStep (s : List Attendance × List Attendance) (att : Attendance) :
    List Attendance × List Attendance :=
  let s1 :=
    if empIsHalf att then (s.1 ++ [att], s.2)
    else if empIsLate att then (s.1, s.2 ++ [att])
    else (s.1, ([] : List Attendance))
  if s1.2.length = 3 then (s1.1 ++ s1.2.getLast?.toList, []) else s1

/-- One iteration of the per-employee scan inside `get_company_half_days_leave`
(hr_service.py lines 242-256).  Unlike `empStep`, the half-day status branch
also resets `late_days` (line 246). -/
def compStep (s : List Attendance × List Attendance) (att : Attendance) :
    List Attendance × List Attendance :=
  let s1 :=
    if compIsHalf att then (s.1 ++ [att], ([] : List Attendance))
    else if compIsLate att then (s.1, s.2 ++ [att])
    else (s.1, ([] : List Attendance))
  if s1.2.length = 3 then (s1.1 ++ s1.2.getLast?.toList, []) else s1

/-- Result shape of the half-day aggregators: `halfday_count`, `leave_count`
and the credited records. -/
structure HalfDaysResult where
  halfday_count : Nat
  leave_count : Nat
  records : List Attendance
deriving Repr, DecidableEq

/-- Embeds `get_half_days_leave` (hr_service.py lines 153-210) applied to the
employee's date-ordered attendance records: run the scan, then
`leave_count = halfday_count // 6`; the response lists the credited records. -/
def get_half_days_leave (records : List Attendance) : HalfDaysResult :=
  let half_days := (records.foldl empStep ([], [])).1
  { halfday_count := half_days.length
    leave_count := half_days.length / 6
    records := half_days }

/-- The half-day records produced for one employee inside
`get_company_half_days_leave` (the loop at lines 242-256). -/
def compScanHalfDays (records : List Attendance) : List Attendance :=
  (records.foldl compStep ([], [])).1

/-- Embeds `get_company_half_days_leave` (hr_service.py lines 212-277).  The
`defaultdict` grouping by `employee_id` (with each group sorted by date) is
taken as the input: each element of `groups` is one employee's date-ordered
attendance list.  The per-employee half-day counts are summed and the
returned `leave_count` is `total_halfdays // 6`. -/
def get_company_half_days_leave (groups : List (List Attendance)) : HalfDaysResult :=
  let total := (groups.map (fun g => (compScanHalfDays g).length)).sum
  { halfday_count := total
    leave_count := total / 6
    records := (groups.map compScanHalfDays).flatten }

/-- Every third element of a list (positions 2, 5, 8, ... in 0-based
indexing); the records a fully late streak credits as half-days. -/
def pickThirds : List Attendance → List Attendance
  | _ :: _ :: c :: rest => c :: pickThirds rest
  | _ => []

/-- The trailing remainder of a list after removing complete groups of
three; the residual late streak a fully late sequence leaves behind. -/
def lateRem : List Attendance → List Attendance
  | _ :: _ :: _ :: rest => lateRem rest
  | l => l

/-- Scanning a run of records that are all late (and not half-day status) in
the sense of `get_half_days_leave`, starting from an empty streak, credits
exactly every third record and leaves the tail remainder as the streak. -/
theorem foldl_empStep_all_late (l : List Attendance) (hd : List Attendance)
    (h : ∀ a ∈ l, empIsHalf a = false ∧ empIsLate a = true) :
    l.foldl empStep (hd, []) = (hd ++ pickThirds l, lateRem l) := by
  induction l using pickThirds.induct generalizing hd with
  | case1 a b c rest ih =>
    obtain ⟨ha1, ha2⟩ := h a (by simp)
    obtain ⟨hb1, hb2⟩ := h b (by simp)
    obtain ⟨hc1, hc2⟩ := h c (by simp)
    simp only [List.foldl_cons]
    rw [show empStep (hd, []) a = (hd, [a]) by simp [empStep, ha1, ha2]]
    rw [show empStep (hd, [a]) b = (hd, [a, b]) by simp [empStep, hb1, hb2]]
    rw [show empStep (hd, [a, b]) c = (hd ++ [c], []) by
      simp [empStep, hc1, hc2, List.getLast?]]
    have hrest : ∀ x ∈ rest, empIsHalf x = false ∧ empIsLate x = true :=
      fun x hx => h x (by simp [hx])
    rw [ih (hd ++ [c]) hrest]
    simp [pickThirds, lateRem, List.append_assoc]
  | case2 l hne =>
    match l, hne with
    | [], _ => simp [pickThirds, lateRem]
    | [a], _ =>
      obtain ⟨ha1, ha2⟩ := h a (by simp)
      simp [empStep, ha1, ha2, pickThirds, lateRem]
    | [a, b], _ =>
      obtain ⟨ha1, ha2⟩ := h a (by simp)
      obtain ⟨hb1, hb2⟩ := h b (by simp)
      simp [empStep, ha1, ha2, hb1, hb2, pickThirds, lateRem]
    | a :: b :: c :: rest, hne => exact absurd rfl (hne a b c rest)

/-- The same streak property for the per-employee scan inside
`get_company_half_days_leave`. -/
theorem foldl_compStep_all_late (l : List Attendance) (hd : List Attendance)
    (h : ∀ a ∈ l, compIsHalf a = false ∧ compIsLate a = true) :
    l.foldl compStep (hd, []) = (hd ++ pickThirds l, lateRem l) := by
  induction l using pickThirds.induct generalizing hd with
  | case1 a b c rest ih =>
    obtain ⟨ha1, ha2⟩ := h a (by simp)
    obtain ⟨hb1, hb2⟩ := h b (by simp)
    obtain ⟨hc1, hc2⟩ := h c (by simp)
    simp only [List.foldl_cons]
    rw [show compStep (hd, []) a = (hd, [a]) by simp [compStep, ha1, ha2]]
    rw [show compStep (hd, [a]) b = (hd, [a, b]) by simp [compStep, hb1, hb2]]
    rw [show compStep (hd, [a, b]) c = (hd ++ [c], []) by
      simp [compStep, hc1, hc2, List.getLast?]]
    have hrest : ∀ x ∈ rest, compIsHalf x = false ∧ compIsLate x = true :=
      fun x hx => h x (by simp [hx])
    rw [ih (hd ++ [c]) hrest]
    simp [pickThirds, lateRem, List.append_assoc]
  | case2 l hne =>
    match l, hne with
    | [], _ => simp [pickThirds, lateRem]
    | [a], _ =>
      obtain ⟨ha1, ha2⟩ := h a (by simp)
      simp [compStep, ha1, ha2, pickThirds, lateRem]
    | [a, b], _ =>
      obtain ⟨ha1, ha2⟩ := h a (by simp)
      obtain ⟨hb1, hb2⟩ := h b (by simp)
      simp [compStep, ha1, ha2, hb1, hb2, pickThirds, lateRem]
    | a :: b :: c :: rest, hne => exact absurd rfl (hne a b c rest)

/-- A fully late run of length `n` is credited `n / 3` half-days. -/
theorem pickThirds_length (l : List Attendance) :
    (pickThirds l).length = l.length / 3 := by
  induction l using pickThirds.induct with
  | case1 a b c rest ih => simp [pickThirds, ih]; omega
  | case2 l hne =>
    match l, hne with
    | [], _ => simp [pickThirds]
    | [a], _ => simp [pickThirds]
    | [a, b], _ => simp [pickThirds]
    | a :: b :: c :: rest, hne => exact absurd rfl (hne a b c rest)

/-- A fully late run of length `n` leaves a residual streak of `n % 3`. -/
theorem lateRem_length (l : List Attendance) :
    (lateRem l).length = l.length % 3 := by
  induction l using pickThirds.induct with
  | case1 a b c rest ih => simp [lateRem, ih]; omega
  | case2 l hne =>
    match l, hne with
    | [], _ => simp [lateRem]
    | [a], _ => simp [lateRem]
    | [a, b], _ => simp [lateRem]
    | a :: b :: c :: rest, hne => exact absurd rfl (hne a b c rest)

/-- On a record whose lowercased status is not `"halfday"` and whose check-in
carries no seconds, the two scan steps agree. -/
theorem step_agree (a : Attendance)
    (h1 : pyLower a.status ≠ "halfday")
    (h2 : ∀ t, a.check_in = some t → t.ss = 0) (s : List Attendance × List Attendance) :
    empStep s a = compStep s a := by
  have hemp : empIsHalf a = false := by
    simp only [empIsHalf, decide_eq_false_iff_not]
    intro h
    exact h1 (by rw [h]; decide)
  have hcomp : compIsHalf a = false := by
    simp [compIsHalf, h1]
  have hlate : empIsLate a = compIsLate a := by
    cases hc : a.check_in with
    | none => simp [empIsLate, compIsLate, hc]
    | some t =>
      have hss := h2 t hc
      simp [empIsLate, compIsLate, hc, hmAfter935, timeAfter935, hss]
  simp [empStep, compStep, hemp, hcomp, hlate]

/-- The two scans agree along a whole record list under the conditions of
`step_agree`. -/
theorem foldl_agree (l : List Attendance)
    (h : ∀ a ∈ l, pyLower a.status ≠ "halfday" ∧ ∀ t, a.check_in = some t → t.ss = 0)
    (s : List Attendance × List Attendance) :
    l.foldl empStep s = l.foldl compStep s := by
  induction l generalizing s with
  | nil => rfl
  | cons a rest ih =>
    obtain ⟨h1, h2⟩ := h a (by simp)
    simp only [List.foldl_cons, step_agree a h1 h2 s]
    exact ih (fun x hx => h x (by simp [hx])) _

/-- A late-arrival record (10:00 check-in, `"Present"` status). -/
def attLate (d : Int) : Attendance :=
  { employee_id := 1, date := d, check_in := some ⟨10, 0, 0⟩, check_out := none
    status := "Present" }

/-- A record with the exact lowercase `"halfday"` status and no check-in. -/
def attHalfLower (d : Int) : Attendance :=
  { employee_id := 1, date := d, check_in := none, check_out := none
    status := "halfday" }

/-- A record with the capitalized `"HalfDay"` status and no check-in. -/
def attHalfCap (d : Int) : Attendance :=
  { employee_id := 1, date := d, check_in := none, check_out := none
    status := "HalfDay" }

/-- A record checked in at 09:35:30, between the two variants' cutoffs. -/
def attEdge (d : Int) : Attendance :=
  { employee_id := 1, date := d, check_in := some ⟨9, 35, 30⟩, check_out := none
    status := "Present" }

/-- An on-time record (09:00 check-in, `"Present"` status). -/
def attOnTime (d : Int) : Attendance :=
  { employee_id := 1, date := d, check_in := some ⟨9, 0, 0⟩, check_out := none
    status := "Present" }

/-- C2: in both half-day aggregators, a run of consecutive late, non-half-day
records from an empty streak credits exactly every third record as a
half-day (so three consecutive late days yield one credit on the third day,
the streak then resets, and a fourth late day yields no second credit until
three further late days), the number of credits being the run length
divided by three and the residual streak its remainder modulo three. -/
theorem claim_C2_late_streak (l : List Attendance)
    (h : ∀ a ∈ l, empIsHalf a = false ∧ empIsLate a = true ∧
         compIsHalf a = false ∧ compIsLate a = true) :
    (get_half_days_leave l).records = pickThirds l ∧
    (get_half_days_leave l).halfday_count = l.length / 3 ∧
    (l.foldl empStep ([], [])).2.length = l.length % 3 ∧
    compScanHalfDays l = pickThirds l ∧
    (l.foldl compStep ([], [])).2.length = l.length % 3 := by
  have he := foldl_empStep_all_late l [] (fun a ha => ⟨(h a ha).1, (h a ha).2.1⟩)
  have hc := foldl_compStep_all_late l [] (fun a ha => ⟨(h a ha).2.2.1, (h a ha).2.2.2⟩)
  refine ⟨?_, ?_, ?_, ?_, ?_⟩
  · simp [get_half_days_leave, he]
  · simp [get_half_days_leave, he, pickThirds_length]
  · simp [he, lateRem_length]
  · simp [compScanHalfDays, hc]
  · simp [hc, lateRem_length]

theorem claim_C2_late_streak_witness :
    (∀ a ∈ [attLate 1, attLate 2, attLate 3, attLate 4],
        empIsHalf a = false ∧ empIsLate a = true ∧
        compIsHalf a = false ∧ compIsLate a = true) ∧
    ((get_half_days_leave [attLate 1, attLate 2, attLate 3, attLate 4]).records
        = pickThirds [attLate 1, attLate 2, attLate 3, attLate 4] ∧
     (get_half_days_leave [attLate 1, attLate 2, attLate 3, attLate 4]).halfday_count
        = [attLate 1, attLate 2, attLate 3, attLate 4].length / 3 ∧
     ([attLate 1, attLate 2, attLate 3, attLate 4].foldl empStep ([], [])).2.length
        = [attLate 1, attLate 2, attLate 3, attLate 4].length % 3 ∧
     compScanHalfDays [attLate 1, attLate 2, attLate 3, attLate 4]
        = pickThirds [attLate 1, attLate 2, attLate 3, attLate 4] ∧
     ([attLate 1, attLate 2, attLate 3, attLate 4].foldl compStep ([], [])).2.length
        = [attLate 1, attLate 2, attLate 3, attLate 4].length % 3) :=
  ⟨by decide, claim_C2_late_streak [attLate 1, attLate 2, attLate 3, attLate 4] (by decide)⟩

/-- C3 as stated is false for `get_half_days_leave`: in the sequence
late, late, halfday, late, the `"halfday"`-status third record does not
reset the streak, so the fourth late record completes a three-day streak and
is credited as a late-streak half-day (two credits in total). -/
theorem claim_C3_counterexample :
    (get_half_days_leave [attLate 1, attLate 2, attHalfLower 3, attLate 4]).records
      = [attHalfLower 3, attLate 4] ∧
    (get_half_days_leave [attLate 1, attLate 2, attHalfLower 3, attLate 4]).halfday_count = 2 ∧
    (get_company_half_days_leave [[attLate 1, attLate 2, attHalfLower 3, attLate 4]]).records
      = [attHalfLower 3] := by decide

/-- C3 amended: only the company aggregator's step resets an in-progress
late streak on a half-day-status record; the per-employee step of
`get_half_days_leave` leaves the streak untouched there (so late, late,
HalfDay, late credits the fourth day in the per-employee variant). -/
theorem claim_C3_amended :
    (∀ (hd ld : List Attendance) (a : Attendance),
        compIsHalf a = true → (compStep (hd, ld) a).2 = []) ∧
    (∀ (hd ld : List Attendance) (a : Attendance),
        empIsHalf a = true → ld.length ≤ 2 → empStep (hd, ld) a = (hd ++ [a], ld)) := by
  constructor
  · intro hd ld a h
    simp [compStep, h]
  · intro hd ld a h hlen
    have h3 : ¬ ld.length = 3 := by omega
    simp [empStep, h, h3]

theorem claim_C3_amended_witness :
    (compStep ([], [attLate 1, attLate 2]) (attHalfCap 3)).2 = [] ∧
    empStep ([], [attLate 1, attLate 2]) (attHalfLower 3)
      = ([] ++ [attHalfLower 3], [attLate 1, attLate 2]) :=
  ⟨claim_C3_amended.1 [] [attLate 1, attLate 2] (attHalfCap 3) (by decide),
   claim_C3_amended.2 [] [attLate 1, attLate 2] (attHalfLower 3) (by decide) (by decide)⟩

/-- C9 as stated is false: the per-employee scan inside
`get_company_half_days_leave` is not the same scan as `get_half_days_leave`.
A single `"HalfDay"`-status record is credited by the company variant
(case-insensitive match) but not by the per-employee one (exact lowercase
match); and three 09:35:30 check-ins are three late days for the company
variant (`> time(9, 35)` sees seconds) but none for the per-employee one
(`strftime("%H:%M")` drops them). -/
theorem claim_C9_counterexample :
    (get_half_days_leave [attHalfCap 1]).halfday_count = 0 ∧
    (get_company_half_days_leave [[attHalfCap 1]]).halfday_count = 1 ∧
    (get_half_days_leave [attEdge 1, attEdge 2, attEdge 3]).halfday_count = 0 ∧
    (get_company_half_days_leave [[attEdge 1, attEdge 2, attEdge 3]]).halfday_count = 1 := by
  decide

/-- C9 amended: on a single-employee sequence in which no record's lowercased
status is `"halfday"` and every check-in time has zero seconds, the company
aggregator applied to that one group returns exactly the result of
`get_half_days_leave` (same `halfday_count`, `leave_count` and credited
records). -/
theorem claim_C9_amended (l : List Attendance)
    (h : ∀ a ∈ l, pyLower a.status ≠ "halfday" ∧ ∀ t, a.check_in = some t → t.ss = 0) :
    get_company_half_days_leave [l] = get_half_days_leave l := by
  have hfold := foldl_agree l h ([], [])
  simp [get_company_half_days_leave, get_half_days_leave, compScanHalfDays, ← hfold]

theorem claim_C9_amended_witness :
    (∀ a ∈ [attLate 1, attOnTime 2, attLate 3],
        pyLower a.status ≠ "halfday" ∧ ∀ t, a.check_in = some t → t.ss = 0) ∧
    get_company_half_days_leave [[attLate 1, attOnTime 2, attLate 3]]
      = get_half_days_leave [attLate 1, attOnTime 2, attLate 3] :=
  ⟨by decide, claim_C9_amended [attLate 1, attOnTime 2, attLate 3] (by decide)⟩

/-- C10: both aggregators return `leave_count = halfday_count / 6` (floor
division), with no partial credit for a remainder: a result with five
half-days carries `leave_count = 0` and one with six carries
`leave_count = 1`. -/
theorem claim_C10_leave_count_div6 :
    (∀ l : List Attendance,
        (get_half_days_leave l).leave_count = (get_half_days_leave l).halfday_count / 6) ∧
    (∀ gs : List (List Attendance),
        (get_company_half_days_leave gs).leave_count
          = (get_company_half_days_leave gs).halfday_count / 6) ∧
    (∀ l : List Attendance, (get_half_days_leave l).halfday_count = 5 →
        (get_half_days_leave l).leave_count = 0) ∧
    (∀ l : List Attendance, (get_half_days_leave l).halfday_count = 6 →
        (get_half_days_leave l).leave_count = 1) ∧
    (∀ gs : List (List Attendance), (get_company_half_days_leave gs).halfday_count = 5 →
        (get_company_half_days_leave gs).leave_count = 0) ∧
    (∀ gs : List (List Attendance), (get_company_half_days_leave gs).halfday_count = 6 →
        (get_company_half_days_leave gs).leave_count = 1) := by
  refine ⟨fun l => rfl, fun gs => rfl, ?_, ?_, ?_, ?_⟩ <;>
    · intro x h
      simp only [get_half_days_leave, get_company_half_days_leave] at h ⊢
      omega

theorem claim_C10_leave_count_div6_witness :
    ((get_half_days_leave
        [attHalfLower 1, attHalfLower 2, attHalfLower 3, attHalfLower 4,
         attHalfLower 5]).halfday_count = 5) ∧
    ((get_half_days_leave
        [attHalfLower 1, attHalfLower 2, attHalfLower 3, attHalfLower 4,
         attHalfLower 5]).leave_count = 0) ∧
    ((get_half_days_leave
        [attHalfLower 1, attHalfLower 2, attHalfLower 3, attHalfLower 4,
         attHalfLower 5, attHalfLower 6]).halfday_count = 6) ∧
    ((get_half_days_leave
        [attHalfLower 1, attHalfLower 2, attHalfLower 3, attHalfLower 4,
         attHalfLower 5, attHalfLower 6]).leave_count = 1) :=
  ⟨by decide,
   claim_C10_leave_count_div6.2.2.1 _ (by decide),
   by decide,
   claim_C10_leave_count_div6.2.2.2.1 _ (by decide)⟩

/-- One row of `hr.employees`, restricted to the fields the payroll/leave
core reads: `hire_date` is a day number. -/
structure Employee where
  id : Nat
  company_id : Nat
  hire_date : Int
  employment_status : String
deriving Repr, DecidableEq

/-- One row of `hr.salary_components`. -/
structure SalaryComponent where
  structure_id : Nat
  name : String
  component_type : String
  amount : Rat
  taxable : Bool
deriving Repr, DecidableEq

/-- One row of `hr.salary_structures` with its cascaded components. -/
structure SalaryStructure where
  id : Nat
  employee_id : Nat
  is_active : Bool
  components : List SalaryComponent
deriving Repr, DecidableEq

/-- One row of `hr.payroll_runs`; `month` embeds the `"YYYY-MM"` string as
the (year, month) pair, which two civil dates render equally iff the pairs
are equal. -/
structure PayrollRun where
  id : Nat
  month : Int × Nat
  status : String
  company_id : Nat
deriving Repr, DecidableEq

/-- One row of `hr.payslips`; amounts are `Numeric(12, 2)`, embedded as
rationals. -/
structure Payslip where
  id : Nat
  employee_id : Nat
  payroll_run_id : Nat
  total_earnings : Rat
  total_deductions : Rat
  net_pay : Rat
deriving Repr, DecidableEq

/-- One row of `hr.leave_requests`; dates are day numbers and `status`
ranges over `PENDING`, `APPROVED`, `REJECTED`. -/
structure LeaveRequest where
  id : Nat
  employee_id : Nat
  leave_type : String
  start_date : Int
  end_date : Int
  reason : String
  status : String
deriving Repr, DecidableEq

/-- The database state the payroll/leave service methods read and write.
Generated primary keys are modelled by the `next_id` counter. -/
structure HRState where
  employees : List Employee
  salary_structures : List SalaryStructure
  payroll_runs : List PayrollRun
  payslips : List Payslip
  leave_requests : List LeaveRequest
  next_id : Nat
deriving Repr, DecidableEq

/-- Error taxonomy of the service: `HTTPException(404)`, `HTTPException(400)`
and SQLAlchemy's `MultipleResultsFound` from `scalar_one_or_none`. -/
inductive HRError where
  | notFound (detail : String)
  | badRequest (detail : String)
  | multipleResults
deriving Repr, DecidableEq

/-- Embeds SQLAlchemy `Result.scalar_one_or_none()` applied to the rows a
query's filter selects: `None` on no row, the row if unique, and a
`MultipleResultsFound` error on several rows. -/
def scalar_one_or_none {α : Type} (l : List α) : Except HRError (Option α) :=
  match l with
  | [] => .ok none
  | [a] => .ok (some a)
  | _ => .error .multipleResults

/-- Civil-calendar `(year, month, day)` of a day number (days since
1970-01-01), by the standard days-to-civil conversion; embeds reading
`date.year` / `date.month` / `date.day` off an ordinal day in Python. -/
def civilFromDays (z0 : Int) : Int × Nat × Nat :=
  let z : Int := z0 + 719468
  let era : Int := if 0 ≤ z then z / 146097 else (z - 146096) / 146097
  let doe : Nat := (z - era * 146097).toNat
  let yoe : Nat := (doe - doe / 1460 + doe / 36524 - doe / 146096) / 365
  let doy : Nat := doe - (365 * yoe + yoe / 4 - yoe / 100)
  let mp : Nat := (5 * doy + 2) / 153
  let d : Nat := doy - (153 * mp + 2) / 5 + 1
  let m : Nat := if mp < 10 then mp + 3 else mp - 9
  (if m ≤ 2 then era * 400 + (yoe : Int) + 1 else era * 400 + (yoe : Int), m, d)

/-- Embeds `start_date.strftime("%Y-%m")`: the `(year, month)` pair of the
day's civil date, standing for the `"YYYY-MM"` string (two civil dates
render the same string iff their pairs coincide). -/
def monthKey (d : Int) : Int × Nat :=
  ((civilFromDays d).1, (civilFromDays d).2.1)

/-- Payload of `POST /leave-requests` (`LeaveRequestCreate`); `status` is
left to the model default `PENDING`. -/
structure LeaveCreate where
  employee_id : Nat
  leave_type : String
  start_date : Int
  end_date : Int
  reason : String
deriving Repr, DecidableEq

/-- The rows `PayrollRun` matching the filter of step 5 of
`create_leave_request`: `month == payroll_month and company_id ==
employee.company_id`. -/
def runsFor (st : HRState) (mk : Int × Nat) (cid : Nat) : List PayrollRun :=
  st.payroll_runs.filter (fun r => decide (r.month = mk ∧ r.company_id = cid))

/-- The rows `Payslip` matching the filter of step 6 of
`create_leave_request`: `employee_id == employee_id and payroll_run_id ==
payroll_run.id`. -/
def slipsFor (st : HRState) (eid rid : Nat) : List Payslip :=
  st.payslips.filter (fun p => decide (p.employee_id = eid ∧ p.payroll_run_id = rid))

/-- Embeds `create_leave_request` (hr_service.py lines 3677-3753, the
effective last definition of the name): load the employee (404 if absent),
mark probation when `start_date <= hire_date + 90 days`, persist the
PENDING request, compute `leave_days * (2 if probation else 1)`, get or
create the Draft `PayrollRun` for `(start month, company)`, get or create a
zeroed `Payslip` for `(employee, run)`, then add the deduction and recompute
`net_pay = total_earnings - total_deductions`. -/
def create_leave_request (st : HRState) (data : LeaveCreate) :
    Except HRError (HRState × LeaveRequest) :=
  match scalar_one_or_none
      (st.employees.filter (fun e => decide (e.id = data.employee_id))) with
  | .error e => .error e
  | .ok none => .error (.notFound "Employee not found")
  | .ok (some employee) =>
    let probation_end : Int := employee.hire_date + 90
    let is_probation : Bool := decide (data.start_date ≤ probation_end)
    let leave_request : LeaveRequest :=
      { id := st.next_id, employee_id := data.employee_id
        leave_type := data.leave_type, start_date := data.start_date
        end_date := data.end_date, reason := data.reason, status := "PENDING" }
    let st1 : HRState :=
      { st with leave_requests := st.leave_requests ++ [leave_request]
                next_id := st.next_id + 1 }
    let leave_days : Int := (data.end_date - data.start_date) + 1
    let deduction_per_day : Rat := if is_probation then 2 else 1
    let total_deduction_days : Rat := (leave_days : Rat) * deduction_per_day
    let payroll_month := monthKey data.start_date
    match scalar_one_or_none (runsFor st1 payroll_month employee.company_id) with
    | .error e => .error e
    | .ok runOpt =>
      let stRun : HRState × PayrollRun :=
        match runOpt with
        | some r => (st1, r)
        | none =>
          let r : PayrollRun :=
            { id := st1.next_id, month := payroll_month, status := "Draft"
              company_id := employee.company_id }
          ({ st1 with payroll_runs := st1.payroll_runs ++ [r]
                      next_id := st1.next_id + 1 }, r)
      let st2 := stRun.1
      let payroll_run := stRun.2
      match scalar_one_or_none (slipsFor st2 data.employee_id payroll_run.id) with
      | .error e => .error e
      | .ok slipOpt =>
        let stSlip : HRState × Payslip :=
          match slipOpt with
          | some p => (st2, p)
          | none =>
            let p : Payslip :=
              { id := st2.next_id, employee_id := data.employee_id
                payroll_run_id := payroll_run.id, total_earnings := 0
                total_deductions := 0, net_pay := 0 }
            ({ st2 with payslips := st2.payslips ++ [p]
                        next_id := st2.next_id + 1 }, p)
        let st3 := stSlip.1
        let payslip0 := stSlip.2
        let payslip : Payslip :=
          { payslip0 with
            total_deductions := payslip0.total_deductions + total_deduction_days
            net_pay := payslip0.total_earnings
              - (payslip0.total_deductions + total_deduction_days) }
        let st4 : HRState :=
          { st3 with payslips :=
              st3.payslips.map (fun p => if p.id = payslip0.id then payslip else p) }
        .ok (st4, leave_request)

/-- Well-formedness of the database state: generated ids are below the
`next_id` counter, payslips reference runs by generated ids, and payslip
primary keys are unique. -/
def WF (st : HRState) : Prop :=
  (∀ r ∈ st.payroll_runs, r.id < st.next_id) ∧
  (∀ p ∈ st.payslips, p.id < st.next_id ∧ p.payroll_run_id < st.next_id) ∧
  (∀ p ∈ st.payslips, ∀ q ∈ st.payslips, p.id = q.id → p = q)

/-- The payslip a leave deduction for `(employee eid, month mk, company cid)`
would find already present: the unique payslip of the unique matching
payroll run, when both exist. -/
def priorSlip (st : HRState) (eid : Nat) (mk : Int × Nat) (cid : Nat) : Option Payslip :=
  match runsFor st mk cid with
  | [r] =>
    match slipsFor st eid r.id with
    | [p] => some p
    | _ => none
  | _ => none

/-- Earnings already on the target payslip (0 when absent). -/
def priorEarnings (st : HRState) (eid : Nat) (mk : Int × Nat) (cid : Nat) : Rat :=
  match priorSlip st eid mk cid with
  | some p => p.total_earnings
  | none => 0

/-- Deductions already on the target payslip (0 when absent). -/
def priorDeductions (st : HRState) (eid : Nat) (mk : Int × Nat) (cid : Nat) : Rat :=
  match priorSlip st eid mk cid with
  | some p => p.total_deductions
  | none => 0

/-- The deduction `create_leave_request` posts:
`leave_days * (2 if probation else 1)` with
`leave_days = (end_date - start_date).days + 1` and probation meaning
`start_date <= hire_date + 90 days`. -/
def dedAmount (emp : Employee) (data : LeaveCreate) : Rat :=
  ((data.end_date - data.start_date + 1 : Int) : Rat) *
    (if data.start_date ≤ emp.hire_date + 90 then 2 else 1)

/-- The PENDING leave-request row `create_leave_request` persists. -/
def mkLeaveReq (st : HRState) (data : LeaveCreate) : LeaveRequest :=
  { id := st.next_id, employee_id := data.employee_id
    leave_type := data.leave_type, start_date := data.start_date
    end_date := data.end_date, reason := data.reason, status := "PENDING" }

/-- Mapping an id-keyed replacement over a list none of whose elements carry
the key leaves the list unchanged. -/
theorem map_if_id (l : List Payslip) (p' : Payslip) (i : Nat)
    (h : ∀ x ∈ l, ¬ x.id = i) :
    l.map (fun x => if x.id = i then p' else x) = l := by
  induction l with
  | nil => rfl
  | cons y ys ih =>
    simp [h y (by simp), ih (fun x hx => h x (by simp [hx]))]

/-- Replacing, by id, the unique element a filter selects keeps the filter
output a singleton, now holding the replacement. -/
theorem filter_update_single (l : List Payslip) (p0 p' : Payslip) (f : Payslip → Bool)
    (huniq : ∀ q ∈ l, q.id = p0.id → q = p0)
    (hf : l.filter f = [p0])
    (hfp : f p' = true) :
    (l.map (fun q => if q.id = p0.id then p' else q)).filter f = [p'] := by
  induction l with
  | nil => simp at hf
  | cons q rest ih =>
    by_cases hq : q.id = p0.id
    · have hq0 : q = p0 := huniq q (by simp) hq
      subst hq0
      rcases hfq : f q with _ | _
      · rw [List.filter_cons, if_neg (by simp [hfq])] at hf
        have hqr : q ∈ rest.filter f := by rw [hf]; exact List.mem_singleton.mpr rfl
        have := (List.mem_filter.mp hqr).2
        simp [hfq] at this
      · rw [List.filter_cons, if_pos (by simp [hfq])] at hf
        have hrest : rest.filter f = [] := by simpa using hf
        have hnone : ∀ x ∈ rest, ¬ x.id = q.id := by
          intro x hx hxid
          have hx0 : x = q := huniq x (by simp [hx]) hxid
          subst hx0
          have hmem : x ∈ rest.filter f := List.mem_filter.mpr ⟨hx, hfq⟩
          rw [hrest] at hmem
          simp at hmem
        have hmap : rest.map (fun x => if x.id = q.id then p' else x) = rest :=
          map_if_id rest p' q.id hnone
        rw [List.map_cons, if_pos rfl, hmap, List.filter_cons, if_pos (by simp [hfp]), hrest]
    · have hfq : f q = false := by
        rcases hfq : f q with _ | _
        · rfl
        · rw [List.filter_cons, if_pos (by simp [hfq])] at hf
          have : q = p0 := by
            have := hf
            simp at this
            exact this.1
          exact absurd (this ▸ rfl) hq
      rw [List.filter_cons, if_neg (by simp [hfq])] at hf
      rw [List.map_cons, if_neg hq, List.filter_cons, if_neg (by simp [hfq])]
      exact ih (fun x hx hxid => huniq x (by simp [hx]) hxid) hf

theorem filter_false_of {α : Type} (l : List α) (f : α → Bool)
    (h : ∀ a ∈ l, f a = false) : l.filter f = [] := by
  induction l with
  | nil => rfl
  | cons a rest ih =>
    rw [List.filter_cons, if_neg (by simp [h a (by simp)])]
    exact ih (fun x hx => h x (by simp [hx]))

theorem runsFor_state (es : List Employee) (ss : List SalaryStructure)
    (prs : List PayrollRun) (pss : List Payslip) (lrs : List LeaveRequest)
    (n : Nat) (mk : Int × Nat) (cid : Nat) :
    runsFor ⟨es, ss, prs, pss, lrs, n⟩ mk cid
      = prs.filter (fun r => decide (r.month = mk ∧ r.company_id = cid)) := rfl

theorem slipsFor_state (es : List Employee) (ss : List SalaryStructure)
    (prs : List PayrollRun) (pss : List Payslip) (lrs : List LeaveRequest)
    (n : Nat) (eid rid : Nat) :
    slipsFor ⟨es, ss, prs, pss, lrs, n⟩ eid rid
      = pss.filter (fun p => decide (p.employee_id = eid ∧ p.payroll_run_id = rid)) := rfl

theorem create_leave_request_post (st : HRState) (data : LeaveCreate) (emp : Employee)
    (hemp : st.employees.filter (fun e => decide (e.id = data.employee_id)) = [emp])
    (hwf : WF st)
    (hrun : (runsFor st (monthKey data.start_date) emp.company_id).length ≤ 1)
    (hslip : ∀ r ∈ runsFor st (monthKey data.start_date) emp.company_id,
        (slipsFor st data.employee_id r.id).length ≤ 1) :
    ∃ st' run p,
      create_leave_request st data = .ok (st', mkLeaveReq st data) ∧
      st'.employees = st.employees ∧
      WF st' ∧
      runsFor st' (monthKey data.start_date) emp.company_id = [run] ∧
      slipsFor st' data.employee_id run.id = [p] ∧
      run.month = monthKey data.start_date ∧
      run.company_id = emp.company_id ∧
      (runsFor st (monthKey data.start_date) emp.company_id = [] → run.status = "Draft") ∧
      (∀ r0, runsFor st (monthKey data.start_date) emp.company_id = [r0] → run = r0) ∧
      p.employee_id = data.employee_id ∧
      p.payroll_run_id = run.id ∧
      p.total_earnings
        = priorEarnings st data.employee_id (monthKey data.start_date) emp.company_id ∧
      p.total_deductions
        = priorDeductions st data.employee_id (monthKey data.start_date) emp.company_id
          + dedAmount emp data ∧
      p.net_pay = p.total_earnings - p.total_deductions := by
  rcases hr : runsFor st (monthKey data.start_date) emp.company_id with _ | ⟨r, rtail⟩
  · -- no run yet: everything is created fresh
    have hr' : st.payroll_runs.filter
        (fun r => decide (r.month = monthKey data.start_date ∧ r.company_id = emp.company_id)) = [] := hr
    have hfresh : st.payslips.filter
        (fun p => decide (p.employee_id = data.employee_id ∧ p.payroll_run_id = st.next_id + 1)) = [] := by
      apply filter_false_of
      intro p hp
      have := (hwf.2.1 p hp).2
      simp only [decide_eq_false_iff_not]
      rintro ⟨-, h2⟩
      omega
    simp only [create_leave_request, hemp, scalar_one_or_none, runsFor_state, slipsFor_state,
      hr', hfresh]
    refine ⟨_,
      { id := st.next_id + 1, month := monthKey data.start_date, status := "Draft"
        company_id := emp.company_id },
      { id := st.next_id + 1 + 1, employee_id := data.employee_id
        payroll_run_id := st.next_id + 1, total_earnings := 0
        total_deductions := 0 + (((data.end_date - data.start_date + 1 : Int) : Rat) *
          if decide (data.start_date ≤ emp.hire_date + 90) = true then 2 else 1)
        net_pay := 0 - (0 + (((data.end_date - data.start_date + 1 : Int) : Rat) *
          if decide (data.start_date ≤ emp.hire_date + 90) = true then 2 else 1)) },
      rfl, rfl, ?wf, ?runs, ?slips, rfl, rfl, fun _ => rfl, ?noRun, rfl, rfl, ?earn, ?ded, ?net⟩
    case runs =>
      simp only [runsFor_state, List.filter_append, hr']
      simp
    case slips =>
      dsimp only
      refine filter_update_single _ { id := st.next_id + 1 + 1, employee_id := data.employee_id, payroll_run_id := st.next_id + 1, total_earnings := 0, total_deductions := 0, net_pay := 0 } _ _ ?uniq ?hf ?hfp
      case uniq =>
        intro q hq hqid
        rcases List.mem_append.mp hq with hq | hq
        · have hlt := (hwf.2.1 q hq).1
          dsimp only at hqid
          exact absurd hqid (by omega)
        · simpa using hq
      case hf =>
        rw [List.filter_append, hfresh]
        simp
      case hfp => simp
    case noRun =>
      exact fun r0 h => absurd h (by simp)
    case earn =>
      simp [priorEarnings, priorSlip, hr]
    case ded =>
      simp [priorDeductions, priorSlip, hr, dedAmount]
    case net =>
      rfl
    case wf =>
      refine ⟨?_, ?_, ?_⟩
      · intro r hrr
        rcases List.mem_append.mp hrr with h | h
        · have := hwf.1 r h
          dsimp only
          omega
        · simp only [List.mem_singleton] at h
          subst h
          dsimp only
          omega
      · intro p hp
        obtain ⟨x, hx, rfl⟩ := List.mem_map.mp hp
        by_cases hxid : x.id = st.next_id + 1 + 1
        · dsimp only
          rw [if_pos hxid]
          dsimp only
          omega
        · dsimp only
          rw [if_neg hxid]
          rcases List.mem_append.mp hx with h | h
          · have := hwf.2.1 x h
            omega
          · simp only [List.mem_singleton] at h
            subst h
            simp at hxid
      · intro p hp q hq hpq
        obtain ⟨x, hx, rfl⟩ := List.mem_map.mp hp
        obtain ⟨y, hy, rfl⟩ := List.mem_map.mp hq
        have hids : ∀ z : Payslip,
            ((fun w => if w.id = st.next_id + 1 + 1 then
              ({ id := st.next_id + 1 + 1, employee_id := data.employee_id,
                 payroll_run_id := st.next_id + 1, total_earnings := 0,
                 total_deductions := 0 + (((data.end_date - data.start_date + 1 : Int) : Rat) *
                   if decide (data.start_date ≤ emp.hire_date + 90) = true then 2 else 1),
                 net_pay := 0 - (0 + (((data.end_date - data.start_date + 1 : Int) : Rat) *
                   if decide (data.start_date ≤ emp.hire_date + 90) = true then 2 else 1)) } : Payslip)
              else w) z).id = z.id := by
          intro z
          by_cases hz : z.id = st.next_id + 1 + 1 <;> simp [hz]
        have hluniq : ∀ a ∈ st.payslips ++ [{ id := st.next_id + 1 + 1, employee_id := data.employee_id, payroll_run_id := st.next_id + 1, total_earnings := 0, total_deductions := 0, net_pay := 0 }],
            ∀ b ∈ st.payslips ++ [{ id := st.next_id + 1 + 1, employee_id := data.employee_id, payroll_run_id := st.next_id + 1, total_earnings := 0, total_deductions := 0, net_pay := 0 }], a.id = b.id → a = b := by
          intro a ha b hb hab
          rcases List.mem_append.mp ha with ha | ha <;> rcases List.mem_append.mp hb with hb | hb
          · exact hwf.2.2 a ha b hb hab
          · simp only [List.mem_singleton] at hb
            subst hb
            have := (hwf.2.1 a ha).1
            dsimp only at hab
            exact absurd hab (by omega)
          · simp only [List.mem_singleton] at ha
            subst ha
            have := (hwf.2.1 b hb).1
            dsimp only at hab
            exact absurd hab (by omega)
          · simp only [List.mem_singleton] at ha hb
            rw [ha, hb]
        have hxy : x.id = y.id := by
          rw [← hids x, ← hids y]
          exact hpq
        rw [hluniq x hx y hy hxy]
  · rcases rtail with _ | ⟨r2, rtail2⟩
    · -- the run exists already
      have hr' : st.payroll_runs.filter
          (fun x => decide (x.month = monthKey data.start_date ∧ x.company_id = emp.company_id)) = [r] := hr
      have hrin : r ∈ List.filter
          (fun x => decide (x.month = monthKey data.start_date ∧ x.company_id = emp.company_id))
          st.payroll_runs := by rw [hr']; simp
      have hrmem := (List.mem_filter.mp hrin).1
      have hrprops := (List.mem_filter.mp hrin).2
      rw [decide_eq_true_eq] at hrprops
      obtain ⟨hrm, hrc⟩ := hrprops
      have hrlt := hwf.1 r hrmem
      rcases hs : slipsFor st data.employee_id r.id with _ | ⟨p, ptail⟩
      · -- no payslip yet for (employee, run)
        have hs' : st.payslips.filter
            (fun q => decide (q.employee_id = data.employee_id ∧ q.payroll_run_id = r.id)) = [] := hs
        simp only [create_leave_request, hemp, scalar_one_or_none, runsFor_state,
          slipsFor_state, hr', hs']
        refine ⟨_, r, { id := st.next_id + 1, employee_id := data.employee_id, payroll_run_id := r.id, total_earnings := 0, total_deductions := 0 + (((data.end_date - data.start_date + 1 : Int) : Rat) * if decide (data.start_date ≤ emp.hire_date + 90) = true then 2 else 1), net_pay := 0 - (0 + (((data.end_date - data.start_date + 1 : Int) : Rat) * if decide (data.start_date ≤ emp.hire_date + 90) = true then 2 else 1)) },
          rfl, rfl, ?wfA, ?runsA, ?slipsA, hrm, hrc, ?noRunA, ?forcedA, rfl, rfl,
          ?earnA, ?dedA, rfl⟩
        case runsA => exact hr'
        case slipsA =>
          dsimp only
          refine filter_update_single _ { id := st.next_id + 1, employee_id := data.employee_id, payroll_run_id := r.id, total_earnings := 0, total_deductions := 0, net_pay := 0 } _ _ ?uniqA ?hfA ?hfpA
          case uniqA =>
            intro q hq hqid
            rcases List.mem_append.mp hq with hq | hq
            · have hlt := (hwf.2.1 q hq).1
              dsimp only at hqid
              exact absurd hqid (by omega)
            · simpa using hq
          case hfA =>
            rw [List.filter_append, hs']
            simp
          case hfpA => simp
        case noRunA =>
          intro h
          exact absurd h (by simp)
        case forcedA =>
          intro r0 h0
          simpa using h0
        case earnA =>
          simp [priorEarnings, priorSlip, hr, hs]
        case dedA =>
          simp [priorDeductions, priorSlip, hr, hs, dedAmount]
        case wfA =>
          refine ⟨?_, ?_, ?_⟩
          · intro x hx
            have := hwf.1 x hx
            dsimp only
            omega
          · intro x hx
            obtain ⟨y, hy, rfl⟩ := List.mem_map.mp hx
            by_cases hyid : y.id = st.next_id + 1
            · dsimp only
              rw [if_pos hyid]
              refine ⟨by dsimp only; omega, by dsimp only; omega⟩
            · dsimp only
              rw [if_neg hyid]
              rcases List.mem_append.mp hy with h | h
              · have := hwf.2.1 y h
                omega
              · simp only [List.mem_singleton] at h
                subst h
                simp at hyid
          · intro x hx y hy hxy
            obtain ⟨a, ha, rfl⟩ := List.mem_map.mp hx
            obtain ⟨b, hb, rfl⟩ := List.mem_map.mp hy
            have hids : ∀ z : Payslip,
                ((fun w => if w.id = st.next_id + 1 then ({ id := st.next_id + 1, employee_id := data.employee_id, payroll_run_id := r.id, total_earnings := 0, total_deductions := 0 + (((data.end_date - data.start_date + 1 : Int) : Rat) * if decide (data.start_date ≤ emp.hire_date + 90) = true then 2 else 1), net_pay := 0 - (0 + (((data.end_date - data.start_date + 1 : Int) : Rat) * if decide (data.start_date ≤ emp.hire_date + 90) = true then 2 else 1)) } : Payslip)
                  else w) z).id = z.id := by
              intro z
              by_cases hz : z.id = st.next_id + 1 <;> simp [hz]
            have hluniq : ∀ a ∈ st.payslips ++ [{ id := st.next_id + 1, employee_id := data.employee_id, payroll_run_id := r.id, total_earnings := 0, total_deductions := 0, net_pay := 0 }],
                ∀ b ∈ st.payslips ++ [{ id := st.next_id + 1, employee_id := data.employee_id, payroll_run_id := r.id, total_earnings := 0, total_deductions := 0, net_pay := 0 }], a.id = b.id → a = b := by
              intro a ha b hb hab
              rcases List.mem_append.mp ha with ha | ha <;>
                rcases List.mem_append.mp hb with hb | hb
              · exact hwf.2.2 a ha b hb hab
              · simp only [List.mem_singleton] at hb
                subst hb
                have := (hwf.2.1 a ha).1
                dsimp only at hab
                exact absurd hab (by omega)
              · simp only [List.mem_singleton] at ha
                subst ha
                have := (hwf.2.1 b hb).1
                dsimp only at hab
                exact absurd hab (by omega)
              · simp only [List.mem_singleton] at ha hb
                rw [ha, hb]
            have hab : a.id = b.id := by
              rw [← hids a, ← hids b]
              exact hxy
            rw [hluniq a ha b hb hab]
      · rcases ptail with _ | ⟨p2, pt2⟩
        · -- payslip already exists
          have hs' : st.payslips.filter
              (fun q => decide (q.employee_id = data.employee_id ∧ q.payroll_run_id = r.id)) = [p] := hs
          have hpin : p ∈ List.filter
              (fun q => decide (q.employee_id = data.employee_id ∧ q.payroll_run_id = r.id))
              st.payslips := by rw [hs']; simp
          have hpmem := (List.mem_filter.mp hpin).1
          have hpprops := (List.mem_filter.mp hpin).2
          rw [decide_eq_true_eq] at hpprops
          obtain ⟨hpe, hpr⟩ := hpprops
          have hplt := hwf.2.1 p hpmem
          simp only [create_leave_request, hemp, scalar_one_or_none, runsFor_state,
            slipsFor_state, hr', hs']
          refine ⟨_, r, { id := p.id, employee_id := p.employee_id, payroll_run_id := p.payroll_run_id, total_earnings := p.total_earnings, total_deductions := p.total_deductions + (((data.end_date - data.start_date + 1 : Int) : Rat) * if decide (data.start_date ≤ emp.hire_date + 90) = true then 2 else 1), net_pay := p.total_earnings - (p.total_deductions + (((data.end_date - data.start_date + 1 : Int) : Rat) * if decide (data.start_date ≤ emp.hire_date + 90) = true then 2 else 1)) },
            rfl, rfl, ?wfB, ?runsB, ?slipsB, hrm, hrc, ?noRunB, ?forcedB, hpe, hpr,
            ?earnB, ?dedB, rfl⟩
          case runsB => exact hr'
          case slipsB =>
            dsimp only
            refine filter_update_single _ p _ _ ?uniqB ?hfB ?hfpB
            case uniqB =>
              intro q hq hqid
              exact hwf.2.2 q hq p hpmem hqid
            case hfB => exact hs'
            case hfpB => simp [hpe, hpr]
          case noRunB =>
            intro h
            exact absurd h (by simp)
          case forcedB =>
            intro r0 h0
            simpa using h0
          case earnB =>
            simp [priorEarnings, priorSlip, hr, hs]
          case dedB =>
            simp [priorDeductions, priorSlip, hr, hs, dedAmount]
          case wfB =>
            refine ⟨?_, ?_, ?_⟩
            · intro x hx
              have := hwf.1 x hx
              dsimp only
              omega
            · intro x hx
              obtain ⟨y, hy, rfl⟩ := List.mem_map.mp hx
              by_cases hyid : y.id = p.id
              · dsimp only
                rw [if_pos hyid]
                refine ⟨by dsimp only; omega, by dsimp only; omega⟩
              · dsimp only
                rw [if_neg hyid]
                have := hwf.2.1 y hy
                omega
            · intro x hx y hy hxy
              obtain ⟨a, ha, rfl⟩ := List.mem_map.mp hx
              obtain ⟨b, hb, rfl⟩ := List.mem_map.mp hy
              have hids : ∀ z : Payslip,
                  ((fun w => if w.id = p.id then ({ id := p.id, employee_id := p.employee_id, payroll_run_id := p.payroll_run_id, total_earnings := p.total_earnings, total_deductions := p.total_deductions + (((data.end_date - data.start_date + 1 : Int) : Rat) * if decide (data.start_date ≤ emp.hire_date + 90) = true then 2 else 1), net_pay := p.total_earnings - (p.total_deductions + (((data.end_date - data.start_date + 1 : Int) : Rat) * if decide (data.start_date ≤ emp.hire_date + 90) = true then 2 else 1)) } : Payslip)
                    else w) z).id = z.id := by
                intro z
                by_cases hz : z.id = p.id <;> simp [hz]
              have hab : a.id = b.id := by
                rw [← hids a, ← hids b]
                exact hxy
              rw [hwf.2.2 a ha b hb hab]
        · -- two payslips for the same key: excluded by the hypothesis
          have hlen := hslip r (by rw [hr]; simp)
          rw [hs] at hlen
          simp at hlen
    · rw [hr] at hrun
      simp at hrun

/-- C1: for a leave request created for an existing employee, the deduction
posted to the payslip of the start month's payroll run is
`leave_days * 2` when `start_date <= hire_date + 90` and `leave_days * 1`
otherwise, with `leave_days = (end_date - start_date).days + 1`; in
particular a request with `start_date == end_date` is charged exactly one
leave day (times the probation factor). -/
theorem claim_C1_probation_deduction (st : HRState) (data : LeaveCreate) (emp : Employee)
    (hemp : st.employees.filter (fun e => decide (e.id = data.employee_id)) = [emp])
    (hwf : WF st)
    (hrun : (runsFor st (monthKey data.start_date) emp.company_id).length ≤ 1)
    (hslip : ∀ r ∈ runsFor st (monthKey data.start_date) emp.company_id,
        (slipsFor st data.employee_id r.id).length ≤ 1) :
    ∃ st' run p,
      create_leave_request st data = .ok (st', mkLeaveReq st data) ∧
      runsFor st' (monthKey data.start_date) emp.company_id = [run] ∧
      slipsFor st' data.employee_id run.id = [p] ∧
      p.total_deductions
        = priorDeductions st data.employee_id (monthKey data.start_date) emp.company_id
          + ((data.end_date - data.start_date + 1 : Int) : Rat)
            * (if data.start_date ≤ emp.hire_date + 90 then 2 else 1) ∧
      (data.end_date = data.start_date →
        p.total_deductions
          = priorDeductions st data.employee_id (monthKey data.start_date) emp.company_id
            + (if data.start_date ≤ emp.hire_date + 90 then (2 : Rat) else 1)) := by
  obtain ⟨st', run, p, h1, -, -, h4, h5, -, -, -, -, -, -, -, hded, -⟩ :=
    create_leave_request_post st data emp hemp hwf hrun hslip
  refine ⟨st', run, p, h1, h4, h5, hded, ?_⟩
  intro h
  rw [hded]
  congr 1
  rw [dedAmount, h]
  simp

/-- Fixture employee for the concrete instantiations. -/
def empW : Employee :=
  { id := 1, company_id := 2, hire_date := 0, employment_status := "ACTIVE" }

/-- Fixture state: one employee, no runs, no payslips. -/
def stW : HRState :=
  { employees := [empW], salary_structures := [], payroll_runs := [], payslips := []
    leave_requests := [], next_id := 5 }

/-- Fixture leave request payload: three days starting at day 10 (inside the
90-day probation window of `empW`). -/
def dataW : LeaveCreate :=
  { employee_id := 1, leave_type := "CASUAL", start_date := 10, end_date := 12
    reason := "trip" }

theorem claim_C1_probation_deduction_witness :
    (stW.employees.filter (fun e => decide (e.id = dataW.employee_id)) = [empW]) ∧
    ((∀ r ∈ stW.payroll_runs, r.id < stW.next_id) ∧
      (∀ p ∈ stW.payslips, p.id < stW.next_id ∧ p.payroll_run_id < stW.next_id) ∧
      (∀ p ∈ stW.payslips, ∀ q ∈ stW.payslips, p.id = q.id → p = q)) ∧
    ((runsFor stW (monthKey dataW.start_date) empW.company_id).length ≤ 1) ∧
    (∀ r ∈ runsFor stW (monthKey dataW.start_date) empW.company_id,
        (slipsFor stW dataW.employee_id r.id).length ≤ 1) ∧
    (∃ st' run p,
      create_leave_request stW dataW = .ok (st', mkLeaveReq stW dataW) ∧
      runsFor st' (monthKey dataW.start_date) empW.company_id = [run] ∧
      slipsFor st' dataW.employee_id run.id = [p] ∧
      p.total_deductions
        = priorDeductions stW dataW.employee_id (monthKey dataW.start_date) empW.company_id
          + ((dataW.end_date - dataW.start_date + 1 : Int) : Rat)
            * (if dataW.start_date ≤ empW.hire_date + 90 then 2 else 1) ∧
      (dataW.end_date = dataW.start_date →
        p.total_deductions
          = priorDeductions stW dataW.employee_id (monthKey dataW.start_date) empW.company_id
            + (if dataW.start_date ≤ empW.hire_date + 90 then (2 : Rat) else 1))) :=
  ⟨by decide, by decide, by decide, by decide,
   claim_C1_probation_deduction stW dataW empW (by decide)
     (by unfold WF; decide) (by decide) (by decide)⟩

/-- C7: the deduction posting is not idempotent: creating the same leave
request twice posts the deduction twice, leaving the target payslip's
`total_deductions` larger by exactly twice the single amount (no dedup
key). -/
theorem claim_C7_double_posting (st : HRState) (data : LeaveCreate) (emp : Employee)
    (hemp : st.employees.filter (fun e => decide (e.id = data.employee_id)) = [emp])
    (hwf : WF st)
    (hrun : (runsFor st (monthKey data.start_date) emp.company_id).length ≤ 1)
    (hslip : ∀ r ∈ runsFor st (monthKey data.start_date) emp.company_id,
        (slipsFor st data.employee_id r.id).length ≤ 1) :
    ∃ st1 lr1 st2 lr2 run p,
      create_leave_request st data = .ok (st1, lr1) ∧
      create_leave_request st1 data = .ok (st2, lr2) ∧
      runsFor st2 (monthKey data.start_date) emp.company_id = [run] ∧
      slipsFor st2 data.employee_id run.id = [p] ∧
      p.total_deductions
        = priorDeductions st data.employee_id (monthKey data.start_date) emp.company_id
          + 2 * dedAmount emp data := by
  obtain ⟨st1, run1, p1, h1, hemp1, hwf1, hrun1, hslip1, -, -, -, -, -, -, -, hded1, -⟩ :=
    create_leave_request_post st data emp hemp hwf hrun hslip
  have hemp1' : st1.employees.filter (fun e => decide (e.id = data.employee_id)) = [emp] := by
    rw [hemp1]
    exact hemp
  have hrun1' : (runsFor st1 (monthKey data.start_date) emp.company_id).length ≤ 1 := by
    rw [hrun1]
    simp
  have hslip1' : ∀ r ∈ runsFor st1 (monthKey data.start_date) emp.company_id,
      (slipsFor st1 data.employee_id r.id).length ≤ 1 := by
    intro r hrX
    rw [hrun1] at hrX
    simp only [List.mem_singleton] at hrX
    subst hrX
    rw [hslip1]
    simp
  obtain ⟨st2, run2, p2, h2, -, -, hrun2, hslip2, -, -, -, -, -, -, -, hded2, -⟩ :=
    create_leave_request_post st1 data emp hemp1' hwf1 hrun1' hslip1'
  have hprior1 : priorDeductions st1 data.employee_id (monthKey data.start_date) emp.company_id
      = p1.total_deductions := by
    simp [priorDeductions, priorSlip, hrun1, hslip1]
  refine ⟨st1, _, st2, _, run2, p2, h1, h2, hrun2, hslip2, ?_⟩
  rw [hded2, hprior1, hded1]
  ring

theorem claim_C7_double_posting_witness :
    (stW.employees.filter (fun e => decide (e.id = dataW.employee_id)) = [empW]) ∧
    ((∀ r ∈ stW.payroll_runs, r.id < stW.next_id) ∧
      (∀ p ∈ stW.payslips, p.id < stW.next_id ∧ p.payroll_run_id < stW.next_id) ∧
      (∀ p ∈ stW.payslips, ∀ q ∈ stW.payslips, p.id = q.id → p = q)) ∧
    ((runsFor stW (monthKey dataW.start_date) empW.company_id).length ≤ 1) ∧
    (∀ r ∈ runsFor stW (monthKey dataW.start_date) empW.company_id,
        (slipsFor stW dataW.employee_id r.id).length ≤ 1) ∧
    (∃ st1 lr1 st2 lr2 run p,
      create_leave_request stW dataW = .ok (st1, lr1) ∧
      create_leave_request st1 dataW = .ok (st2, lr2) ∧
      runsFor st2 (monthKey dataW.start_date) empW.company_id = [run] ∧
      slipsFor st2 dataW.employee_id run.id = [p] ∧
      p.total_deductions
        = priorDeductions stW dataW.employee_id (monthKey dataW.start_date) empW.company_id
          + 2 * dedAmount empW dataW) :=
  ⟨by decide, by decide, by decide, by decide,
   claim_C7_double_posting stW dataW empW (by decide)
     (by unfold WF; decide) (by decide) (by decide)⟩

/-- C8: for any state in which the employee exists (uniquely, and with the
month's run and its payslip unique when present), the deduction path
succeeds: the run for `(start month, company)` and the payslip for
`(employee, run)` are get-or-created before posting, the run being created
in `Draft` status and the payslip zeroed, so no missing-run or
missing-payslip error can occur. -/
theorem claim_C8_lazy_materialization (st : HRState) (data : LeaveCreate) (emp : Employee)
    (hemp : st.employees.filter (fun e => decide (e.id = data.employee_id)) = [emp])
    (hwf : WF st)
    (hrun : (runsFor st (monthKey data.start_date) emp.company_id).length ≤ 1)
    (hslip : ∀ r ∈ runsFor st (monthKey data.start_date) emp.company_id,
        (slipsFor st data.employee_id r.id).length ≤ 1) :
    ∃ st' run p,
      create_leave_request st data = .ok (st', mkLeaveReq st data) ∧
      runsFor st' (monthKey data.start_date) emp.company_id = [run] ∧
      slipsFor st' data.employee_id run.id = [p] ∧
      run.month = monthKey data.start_date ∧
      run.company_id = emp.company_id ∧
      p.employee_id = data.employee_id ∧
      p.payroll_run_id = run.id ∧
      (runsFor st (monthKey data.start_date) emp.company_id = [] → run.status = "Draft") ∧
      (priorSlip st data.employee_id (monthKey data.start_date) emp.company_id = none →
        p.total_earnings = 0 ∧ p.total_deductions = dedAmount emp data) := by
  obtain ⟨st', run, p, h1, -, -, h4, h5, hm, hc, hdraft, -, hpe, hpr, hearn, hded, -⟩ :=
    create_leave_request_post st data emp hemp hwf hrun hslip
  refine ⟨st', run, p, h1, h4, h5, hm, hc, hpe, hpr, hdraft, ?_⟩
  intro hnone
  constructor
  · rw [hearn]
    simp [priorEarnings, hnone]
  · rw [hded]
    simp [priorDeductions, hnone]

theorem claim_C8_lazy_materialization_witness :
    (stW.employees.filter (fun e => decide (e.id = dataW.employee_id)) = [empW]) ∧
    ((∀ r ∈ stW.payroll_runs, r.id < stW.next_id) ∧
      (∀ p ∈ stW.payslips, p.id < stW.next_id ∧ p.payroll_run_id < stW.next_id) ∧
      (∀ p ∈ stW.payslips, ∀ q ∈ stW.payslips, p.id = q.id → p = q)) ∧
    ((runsFor stW (monthKey dataW.start_date) empW.company_id).length ≤ 1) ∧
    (∀ r ∈ runsFor stW (monthKey dataW.start_date) empW.company_id,
        (slipsFor stW dataW.employee_id r.id).length ≤ 1) ∧
    (∃ st' run p,
      create_leave_request stW dataW = .ok (st', mkLeaveReq stW dataW) ∧
      runsFor st' (monthKey dataW.start_date) empW.company_id = [run] ∧
      slipsFor st' dataW.employee_id run.id = [p] ∧
      run.month = monthKey dataW.start_date ∧
      run.company_id = empW.company_id ∧
      p.employee_id = dataW.employee_id ∧
      p.payroll_run_id = run.id ∧
      (runsFor stW (monthKey dataW.start_date) empW.company_id = [] →
        run.status = "Draft") ∧
      (priorSlip stW dataW.employee_id (monthKey dataW.start_date) empW.company_id = none →
        p.total_earnings = 0 ∧ p.total_deductions = dedAmount empW dataW)) :=
  ⟨by decide, by decide, by decide, by decide,
   claim_C8_lazy_materialization stW dataW empW (by decide)
     (by unfold WF; decide) (by decide) (by decide)⟩

/-- The active-structure query of `process_payroll` (hr_service.py lines
3473-3476): structures with `employee_id == employee.id` and
`is_active == True`. -/
def structsFor (st : HRState) (eid : Nat) : List SalaryStructure :=
  st.salary_structures.filter (fun s => decide (s.employee_id = eid ∧ s.is_active = true))

/-- One iteration of the component loop of `process_payroll` (lines
3486-3490): `BASIC`/`ALLOWANCE`/`BONUS` amounts add to earnings, `DEDUCTION`
amounts to deductions, anything else is ignored. -/
def componentStep (acc : Rat × Rat) (c : SalaryComponent) : Rat × Rat :=
  if c.component_type = "BASIC" ∨ c.component_type = "ALLOWANCE" ∨ c.component_type = "BONUS" then
    (acc.1 + c.amount, acc.2)
  else if c.component_type = "DEDUCTION" then
    (acc.1, acc.2 + c.amount)
  else acc

/-- The totals `(total_earnings, total_deductions)` accumulated from
`Decimal('0.00')` over a structure's components (lines 3483-3490). -/
def componentTotals (components : List SalaryComponent) : Rat × Rat :=
  components.foldl componentStep (0, 0)

/-- The body of the per-employee loop of `process_payroll` (lines 3471-3502):
look up the employee's active structure with `scalar_one_or_none`, and when
present append a payslip with the summed totals (generated ids are threaded
through the accumulator); an employee without an active structure is
skipped. -/
def payslipStep (st : HRState) (runId : Nat) (acc : List Payslip × Nat)
    (employee : Employee) : Except HRError (List Payslip × Nat) :=
  match scalar_one_or_none (structsFor st employee.id) with
  | .error e => .error e
  | .ok (some salary_structure) =>
    let t := componentTotals salary_structure.components
    .ok (acc.1 ++
      [{ id := acc.2, employee_id := employee.id, payroll_run_id := runId
         total_earnings := t.1, total_deductions := t.2, net_pay := t.1 - t.2 }],
      acc.2 + 1)
  | .ok none => .ok acc

/-- Embeds `process_payroll` (hr_service.py lines 3455-3512, the effective
last definition of the name): load the run by primary key (404 when
absent); reject a non-`Draft` run with HTTP 400 before any write; otherwise
iterate the employees with `employment_status == "ACTIVE"`, create a payslip
per active salary structure, and finish by marking the run `Processed`.
The single `commit` sits at the end, so an exception anywhere leaves the
transaction unwritten: the error outcomes return the input state. -/
def process_payroll (st : HRState) (run_id : Nat) : HRState × Except HRError PayrollRun :=
  match st.payroll_runs.find? (fun r => decide (r.id = run_id)) with
  | none => (st, .error (.notFound "Payroll run not found"))
  | some payroll_run =>
    if payroll_run.status ≠ "Draft" then
      (st, .error (.badRequest "Payroll can only be processed from Draft status"))
    else
      let employees := st.employees.filter (fun e => decide (e.employment_status = "ACTIVE"))
      match employees.foldlM (payslipStep st payroll_run.id) (([] : List Payslip), st.next_id) with
      | .error e => (st, .error e)
      | .ok res =>
        ({ st with
            payslips := st.payslips ++ res.1
            payroll_runs := st.payroll_runs.map
              (fun r => if r.id = run_id then { r with status := "Processed" } else r)
            next_id := res.2 },
         .ok { payroll_run with status := "Processed" })

/-- A component counted as an earning by `process_payroll`:
`component_type in ['BASIC', 'ALLOWANCE', 'BONUS']`. -/
def isEarningType (c : SalaryComponent) : Bool :=
  decide (c.component_type = "BASIC" ∨ c.component_type = "ALLOWANCE" ∨
    c.component_type = "BONUS")

/-- Sum of the `BASIC`, `ALLOWANCE` and `BONUS` component amounts. -/
def earningsSum (cs : List SalaryComponent) : Rat :=
  ((cs.filter isEarningType).map SalaryComponent.amount).sum

/-- Sum of the `DEDUCTION` component amounts. -/
def deductionsSum (cs : List SalaryComponent) : Rat :=
  ((cs.filter (fun c => decide (c.component_type = "DEDUCTION"))).map
    SalaryComponent.amount).sum

theorem componentTotals_eq (cs : List SalaryComponent) :
    componentTotals cs = (earningsSum cs, deductionsSum cs) := by
  suffices h : ∀ a b : Rat, cs.foldl componentStep (a, b)
      = (a + earningsSum cs, b + deductionsSum cs) by
    rw [componentTotals, h 0 0]
    simp
  induction cs with
  | nil =>
    intro a b
    simp [earningsSum, deductionsSum]
  | cons c rest ih =>
    intro a b
    by_cases h1 : c.component_type = "BASIC" ∨ c.component_type = "ALLOWANCE" ∨
        c.component_type = "BONUS"
    · have hded : ¬ c.component_type = "DEDUCTION" := by
        rcases h1 with h | h | h <;> simp [h]
      simp only [List.foldl_cons, componentStep, if_pos h1, ih]
      rw [show earningsSum (c :: rest) = c.amount + earningsSum rest by
            simp [earningsSum, isEarningType, List.filter_cons, h1],
          show deductionsSum (c :: rest) = deductionsSum rest by
            simp [deductionsSum, List.filter_cons, hded]]
      simp [add_assoc]
    · by_cases h2 : c.component_type = "DEDUCTION"
      · simp only [List.foldl_cons, componentStep, if_neg h1, if_pos h2, ih]
        rw [show earningsSum (c :: rest) = earningsSum rest by
              simp [earningsSum, isEarningType, List.filter_cons, h1],
            show deductionsSum (c :: rest) = c.amount + deductionsSum rest by
              simp [deductionsSum, List.filter_cons, h2]]
        simp [add_assoc]
      · simp only [List.foldl_cons, componentStep, if_neg h1, if_neg h2, ih]
        rw [show earningsSum (c :: rest) = earningsSum rest by
              simp [earningsSum, isEarningType, List.filter_cons, h1],
            show deductionsSum (c :: rest) = deductionsSum rest by
              simp [deductionsSum, List.filter_cons, h2]]

theorem payroll_fold (st : HRState) (runId : Nat) :
    ∀ emps : List Employee,
    (∀ e ∈ emps, (structsFor st e.id).length ≤ 1) →
    ∀ acc : List Payslip × Nat,
    ∃ slips nid,
      emps.foldlM (payslipStep st runId) acc = .ok (acc.1 ++ slips, nid) ∧
      slips.length = (emps.filter (fun e => decide (structsFor st e.id ≠ []))).length ∧
      (∀ e ∈ emps, ∀ s, structsFor st e.id = [s] →
        ∃ p ∈ slips, p.employee_id = e.id ∧ p.payroll_run_id = runId ∧
          p.total_earnings = earningsSum s.components ∧
          p.total_deductions = deductionsSum s.components ∧
          p.net_pay = earningsSum s.components - deductionsSum s.components) := by
  intro emps
  induction emps with
  | nil =>
    intro _ acc
    exact ⟨[], acc.2, by simp [pure, Except.pure], by simp, by simp⟩
  | cons e rest ih =>
    intro hstruct acc
    have he := hstruct e (by simp)
    have hrest : ∀ x ∈ rest, (structsFor st x.id).length ≤ 1 :=
      fun x hx => hstruct x (by simp [hx])
    rcases hse : structsFor st e.id with _ | ⟨s, stail⟩
    · have hstep : payslipStep st runId acc e = .ok acc := by
        simp [payslipStep, hse, scalar_one_or_none]
      obtain ⟨slips, nid, hfold, hlen, hper⟩ := ih hrest acc
      refine ⟨slips, nid, ?_, ?_, ?_⟩
      · rw [List.foldlM_cons, hstep]
        simpa using hfold
      · rw [List.filter_cons, if_neg (by simp [hse])]
        exact hlen
      · intro x hx s hsx
        rcases List.mem_cons.mp hx with rfl | hx
        · rw [hse] at hsx
          cases hsx
        · exact hper x hx s hsx
    · rcases stail with _ | ⟨s2, st2⟩
      · have hstep : payslipStep st runId acc e
            = .ok (acc.1 ++
              [{ id := acc.2, employee_id := e.id, payroll_run_id := runId
                 total_earnings := (componentTotals s.components).1
                 total_deductions := (componentTotals s.components).2
                 net_pay := (componentTotals s.components).1
                   - (componentTotals s.components).2 }], acc.2 + 1) := by
          simp [payslipStep, hse, scalar_one_or_none]
        obtain ⟨slips, nid, hfold, hlen, hper⟩ := ih hrest (acc.1 ++
          [{ id := acc.2, employee_id := e.id, payroll_run_id := runId
             total_earnings := (componentTotals s.components).1
             total_deductions := (componentTotals s.components).2
             net_pay := (componentTotals s.components).1
               - (componentTotals s.components).2 }], acc.2 + 1)
        refine ⟨{ id := acc.2, employee_id := e.id, payroll_run_id := runId
                  total_earnings := (componentTotals s.components).1
                  total_deductions := (componentTotals s.components).2
                  net_pay := (componentTotals s.components).1
                    - (componentTotals s.components).2 } :: slips, nid, ?_, ?_, ?_⟩
        · rw [List.foldlM_cons, hstep]
          simpa using hfold
        · rw [List.filter_cons, if_pos (by simp [hse])]
          simp [hlen]
        · intro x hx s' hsx
          rcases List.mem_cons.mp hx with rfl | hx
          · rw [hse] at hsx
            obtain rfl : s = s' := by simpa using hsx
            refine ⟨{ id := acc.2, employee_id := x.id, payroll_run_id := runId
                      total_earnings := (componentTotals s.components).1
                      total_deductions := (componentTotals s.components).2
                      net_pay := (componentTotals s.components).1
                        - (componentTotals s.components).2 }, by simp, rfl, rfl, ?_, ?_, ?_⟩
            · dsimp only
              rw [componentTotals_eq]
            · dsimp only
              rw [componentTotals_eq]
            · dsimp only
              rw [componentTotals_eq]
          · obtain ⟨p, hp, hrest'⟩ := hper x hx s' hsx
            exact ⟨p, by simp [hp], hrest'⟩
      · rw [hse] at he
        simp at he

/-- C5: processing a payroll run whose status is not `Draft` fails with the
HTTP 400 invalid-state error and performs no writes: the returned state is
the input state, so no payslip is created and the run and every payslip are
unchanged. -/
theorem claim_C5_non_draft_no_writes (st : HRState) (run_id : Nat) (run : PayrollRun)
    (hfind : st.payroll_runs.find? (fun r => decide (r.id = run_id)) = some run)
    (hstatus : run.status ≠ "Draft") :
    process_payroll st run_id
      = (st, .error (.badRequest "Payroll can only be processed from Draft status")) := by
  simp only [process_payroll, hfind]
  rw [if_pos hstatus]

/-- Fixture payroll run in `Processed` status. -/
def runW5 : PayrollRun := { id := 4, month := (2024, 3), status := "Processed", company_id := 2 }

/-- Fixture state holding only `runW5`. -/
def stP5 : HRState :=
  { employees := [empW], salary_structures := [], payroll_runs := [runW5], payslips := []
    leave_requests := [], next_id := 40 }

theorem claim_C5_non_draft_no_writes_witness :
    (stP5.payroll_runs.find? (fun r => decide (r.id = 4)) = some runW5) ∧
    (runW5.status ≠ "Draft") ∧
    process_payroll stP5 4
      = (stP5, .error (.badRequest "Payroll can only be processed from Draft status")) :=
  ⟨by decide, by decide, claim_C5_non_draft_no_writes stP5 4 runW5 (by decide) (by decide)⟩

/-- C4: processing a Draft run succeeds, marks the run `Processed`, and adds
exactly one payslip per `ACTIVE` employee owning an active salary structure,
with `total_earnings` the sum of the `BASIC`/`ALLOWANCE`/`BONUS` component
amounts, `total_deductions` the sum of the `DEDUCTION` amounts and
`net_pay` their difference; active employees without an active structure
contribute no payslip and raise no error. -/
theorem claim_C4_payroll_totals (st : HRState) (run_id : Nat) (run : PayrollRun)
    (hfind : st.payroll_runs.find? (fun r => decide (r.id = run_id)) = some run)
    (hdraft : run.status = "Draft")
    (hstruct : ∀ e ∈ st.employees, e.employment_status = "ACTIVE" →
        (structsFor st e.id).length ≤ 1) :
    ∃ st' run' slips,
      process_payroll st run_id = (st', .ok run') ∧
      run'.status = "Processed" ∧
      st'.payslips = st.payslips ++ slips ∧
      slips.length
        = ((st.employees.filter (fun e => decide (e.employment_status = "ACTIVE"))).filter
            (fun e => decide (structsFor st e.id ≠ []))).length ∧
      (∀ e ∈ st.employees, e.employment_status = "ACTIVE" →
        ∀ s, structsFor st e.id = [s] →
          ∃ p ∈ slips, p.employee_id = e.id ∧ p.payroll_run_id = run.id ∧
            p.total_earnings = earningsSum s.components ∧
            p.total_deductions = deductionsSum s.components ∧
            p.net_pay = earningsSum s.components - deductionsSum s.components) := by
  have hactive : ∀ e ∈ st.employees.filter (fun e => decide (e.employment_status = "ACTIVE")),
      (structsFor st e.id).length ≤ 1 := by
    intro e hx
    have hm := List.mem_filter.mp hx
    exact hstruct e hm.1 (by simpa using hm.2)
  obtain ⟨slips, nid, hfold, hlen, hper⟩ :=
    payroll_fold st run.id
      (st.employees.filter (fun e => decide (e.employment_status = "ACTIVE")))
      hactive (([] : List Payslip), st.next_id)
  simp only [List.nil_append] at hfold
  refine ⟨{ st with
      payslips := st.payslips ++ slips
      payroll_runs := st.payroll_runs.map
        (fun r => if r.id = run_id then { r with status := "Processed" } else r)
      next_id := nid },
    { run with status := "Processed" }, slips, ?_, rfl, rfl, hlen, ?_⟩
  · simp only [process_payroll, hfind]
    rw [if_neg (by simp [hdraft]), hfold]
  · intro e he hact s hs
    obtain ⟨p, hp, hrest⟩ := hper e (List.mem_filter.mpr ⟨he, by simp [hact]⟩) s hs
    exact ⟨p, hp, hrest⟩

/-- Fixture earning component (BASIC 1000). -/
def scW1 : SalaryComponent :=
  { structure_id := 30, name := "Base", component_type := "BASIC", amount := 1000
    taxable := true }

/-- Fixture deduction component (DEDUCTION 100). -/
def scW2 : SalaryComponent :=
  { structure_id := 30, name := "PF", component_type := "DEDUCTION", amount := 100
    taxable := true }

/-- Fixture active salary structure of employee 1. -/
def ssW : SalaryStructure :=
  { id := 30, employee_id := 1, is_active := true, components := [scW1, scW2] }

/-- Fixture second active employee with no salary structure. -/
def empW2 : Employee :=
  { id := 7, company_id := 2, hire_date := 0, employment_status := "ACTIVE" }

/-- Fixture Draft payroll run. -/
def runW4 : PayrollRun := { id := 3, month := (2024, 1), status := "Draft", company_id := 2 }

/-- Fixture state for payroll processing: two active employees, one with an
active structure, and one Draft run. -/
def stP4 : HRState :=
  { employees := [empW, empW2], salary_structures := [ssW], payroll_runs := [runW4]
    payslips := [], leave_requests := [], next_id := 40 }

theorem claim_C4_payroll_totals_witness :
    (stP4.payroll_runs.find? (fun r => decide (r.id = 3)) = some runW4) ∧
    (runW4.status = "Draft") ∧
    (∀ e ∈ stP4.employees, e.employment_status = "ACTIVE" →
        (structsFor stP4 e.id).length ≤ 1) ∧
    (∃ st' run' slips,
      process_payroll stP4 3 = (st', .ok run') ∧
      run'.status = "Processed" ∧
      st'.payslips = stP4.payslips ++ slips ∧
      slips.length
        = ((stP4.employees.filter (fun e => decide (e.employment_status = "ACTIVE"))).filter
            (fun e => decide (structsFor stP4 e.id ≠ []))).length ∧
      (∀ e ∈ stP4.employees, e.employment_status = "ACTIVE" →
        ∀ s, structsFor stP4 e.id = [s] →
          ∃ p ∈ slips, p.employee_id = e.id ∧ p.payroll_run_id = runW4.id ∧
            p.total_earnings = earningsSum s.components ∧
            p.total_deductions = deductionsSum s.components ∧
            p.net_pay = earningsSum s.components - deductionsSum s.components)) :=
  ⟨by decide, by decide, by decide,
   claim_C4_payroll_totals stP4 3 runW4 (by decide) (by decide) (by decide)⟩

/-- Decidable equality for `Except` results, for evaluating the service
calls on concrete fixtures. -/
instance {e a : Type} [DecidableEq e] [DecidableEq a] : DecidableEq (Except e a) :=
  fun x y =>
    match x, y with
    | .error u, .error v => decidable_of_iff (u = v) (by simp)
    | .ok u, .ok v => decidable_of_iff (u = v) (by simp)
    | .error _, .ok _ => isFalse (by simp)
    | .ok _, .error _ => isFalse (by simp)

/-- Payload applied by the leave-request update endpoints
(`data.model_dump(exclude={"id"})` / the explicit field copies). -/
structure LeaveUpdate where
  leave_type : String
  start_date : Int
  end_date : Int
  reason : String
  status : String
deriving Repr, DecidableEq

/-- Embeds `update_leave_request` as the class effectively defines it
(hr_service.py lines 3774-3788, the LAST definition of the name, which
Python name resolution selects): load by primary key (404 when absent),
then set every payload field and commit — with no check of the current
status. -/
def update_leave_request (st : HRState) (leave_id : Nat) (data : LeaveUpdate) :
    Except HRError (HRState × LeaveRequest) :=
  match st.leave_requests.find? (fun l => decide (l.id = leave_id)) with
  | none => .error (.notFound "Leave request not found")
  | some lr =>
    let lr2 : LeaveRequest :=
      { lr with leave_type := data.leave_type, start_date := data.start_date
                end_date := data.end_date, reason := data.reason, status := data.status }
    .ok ({ st with leave_requests :=
            st.leave_requests.map (fun l => if l.id = leave_id then lr2 else l) }, lr2)

/-- Embeds `delete_leave_request` as effectively defined (lines 3790-3798):
load by primary key and delete unconditionally. -/
def delete_leave_request (st : HRState) (leave_id : Nat) : Except HRError HRState :=
  match st.leave_requests.find? (fun l => decide (l.id = leave_id)) with
  | none => .error (.notFound "Leave request not found")
  | some _ =>
    .ok { st with leave_requests :=
            st.leave_requests.filter (fun l => !decide (l.id = leave_id)) }

/-- Embeds `approve_leave_request` as effectively defined (lines 3800-3818):
load by primary key and set `status = APPROVED` unconditionally — no
PENDING check. -/
def approve_leave_request (st : HRState) (leave_id : Nat) :
    Except HRError (HRState × LeaveRequest) :=
  match st.leave_requests.find? (fun l => decide (l.id = leave_id)) with
  | none => .error (.notFound "Leave request not found")
  | some lr =>
    let lr2 : LeaveRequest := { lr with status := "APPROVED" }
    .ok ({ st with leave_requests :=
            st.leave_requests.map (fun l => if l.id = leave_id then lr2 else l) }, lr2)

/-- Embeds `reject_leave_request` as effectively defined (lines 3820-3839):
load by primary key, set `status = REJECTED` unconditionally, and append the
rejection reason when one is given. -/
def reject_leave_request (st : HRState) (leave_id : Nat) (reason : Option String) :
    Except HRError (HRState × LeaveRequest) :=
  match st.leave_requests.find? (fun l => decide (l.id = leave_id)) with
  | none => .error (.notFound "Leave request not found")
  | some lr =>
    let lr2 : LeaveRequest :=
      { lr with status := "REJECTED"
                reason := match reason with
                  | some x => lr.reason ++ "\n\nRejection reason: " ++ x
                  | none => lr.reason }
    .ok ({ st with leave_requests :=
            st.leave_requests.map (fun l => if l.id = leave_id then lr2 else l) }, lr2)

/-- Embeds the SHADOWED guarded `update_leave_request` (hr_service.py lines
3106-3135): rejects modification with HTTP 400 when the request is already
`APPROVED` or `REJECTED`. This definition is dead code: the later
definition of the same method name overrides it in the class. -/
def update_leave_request_shadowed (st : HRState) (leave_id : Nat) (data : LeaveUpdate) :
    Except HRError (HRState × LeaveRequest) :=
  match st.leave_requests.find? (fun l => decide (l.id = leave_id)) with
  | none => .error (.notFound "Leave request not found")
  | some lr =>
    if lr.status = "APPROVED" ∨ lr.status = "REJECTED" then
      .error (.badRequest "Cannot modify approved or rejected leave request")
    else
      let lr2 : LeaveRequest :=
        { lr with leave_type := data.leave_type, start_date := data.start_date
                  end_date := data.end_date, reason := data.reason, status := data.status }
      .ok ({ st with leave_requests :=
              st.leave_requests.map (fun l => if l.id = leave_id then lr2 else l) }, lr2)

/-- Embeds the SHADOWED guarded `delete_leave_request` (lines 3137-3155):
rejects deletion of an `APPROVED` request; dead code for the same reason. -/
def delete_leave_request_shadowed (st : HRState) (leave_id : Nat) :
    Except HRError HRState :=
  match st.leave_requests.find? (fun l => decide (l.id = leave_id)) with
  | none => .error (.notFound "Leave request not found")
  | some lr =>
    if lr.status = "APPROVED" then
      .error (.badRequest "Cannot delete approved leave request")
    else
      .ok { st with leave_requests :=
              st.leave_requests.filter (fun l => !decide (l.id = leave_id)) }

/-- Embeds the SHADOWED guarded `approve_leave_request` (lines 3157-3182):
only PENDING requests can be approved; dead code for the same reason. -/
def approve_leave_request_shadowed (st : HRState) (leave_id : Nat) :
    Except HRError (HRState × LeaveRequest) :=
  match st.leave_requests.find? (fun l => decide (l.id = leave_id)) with
  | none => .error (.notFound "Leave request not found")
  | some lr =>
    if lr.status ≠ "PENDING" then
      .error (.badRequest "Only pending requests can be approved")
    else
      let lr2 : LeaveRequest := { lr with status := "APPROVED" }
      .ok ({ st with leave_requests :=
              st.leave_requests.map (fun l => if l.id = leave_id then lr2 else l) }, lr2)

/-- Embeds the SHADOWED guarded `reject_leave_request` (lines 3184-3213):
only PENDING requests can be rejected; dead code for the same reason. -/
def reject_leave_request_shadowed (st : HRState) (leave_id : Nat) (reason : Option String) :
    Except HRError (HRState × LeaveRequest) :=
  match st.leave_requests.find? (fun l => decide (l.id = leave_id)) with
  | none => .error (.notFound "Leave request not found")
  | some lr =>
    if lr.status ≠ "PENDING" then
      .error (.badRequest "Only pending requests can be rejected")
    else
      let lr2 : LeaveRequest :=
        { lr with status := "REJECTED"
                  reason := match reason with
                    | some x => lr.reason ++ "\n\nRejection reason: " ++ x
                    | none => lr.reason }
      .ok ({ st with leave_requests :=
              st.leave_requests.map (fun l => if l.id = leave_id then lr2 else l) }, lr2)

/-- Fixture APPROVED leave request. -/
def lrA : LeaveRequest :=
  { id := 9, employee_id := 1, leave_type := "SICK", start_date := 3, end_date := 4
    reason := "flu", status := "APPROVED" }

/-- Fixture state holding the APPROVED request `lrA`. -/
def stA : HRState :=
  { employees := [empW], salary_structures := [], payroll_runs := [], payslips := []
    leave_requests := [lrA], next_id := 20 }

/-- Fixture update payload. -/
def updA : LeaveUpdate :=
  { leave_type := "CASUAL", start_date := 5, end_date := 6, reason := "changed"
    status := "PENDING" }

/-- The request `updA` turns `lrA` into. -/
def lrA2 : LeaveRequest :=
  { id := 9, employee_id := 1, leave_type := "CASUAL", start_date := 5, end_date := 6
    reason := "changed", status := "PENDING" }

/-- C6: on the APPROVED request `lrA`, all four effective (last-defined)
operations succeed and mutate or remove it — update rewrites every field and
even resets the status to PENDING, approve re-approves, reject moves the
terminal APPROVED state to REJECTED, and delete removes the row — while the
shadowed guarded definitions of the same methods would have rejected each
call with the conflict errors the claim describes. -/
theorem claim_C6_terminal_state_violated :
    update_leave_request stA 9 updA
      = .ok ({ stA with leave_requests := [lrA2] }, lrA2) ∧
    approve_leave_request stA 9
      = .ok ({ stA with leave_requests := [{ lrA with status := "APPROVED" }] },
             { lrA with status := "APPROVED" }) ∧
    reject_leave_request stA 9 none
      = .ok ({ stA with leave_requests := [{ lrA with status := "REJECTED" }] },
             { lrA with status := "REJECTED" }) ∧
    delete_leave_request stA 9 = .ok { stA with leave_requests := [] } ∧
    update_leave_request_shadowed stA 9 updA
      = .error (.badRequest "Cannot modify approved or rejected leave request") ∧
    delete_leave_request_shadowed stA 9
      = .error (.badRequest "Cannot delete approved leave request") ∧
    approve_leave_request_shadowed stA 9
      = .error (.badRequest "Only pending requests can be approved") ∧
    reject_leave_request_shadowed stA 9 none
      = .error (.badRequest "Only pending requests can be rejected") := by
  decide
